import Mathlib

set_option maxRecDepth 8000

/-
Shallow embedding of the geometric-predicate kernel of the mcut repository
(header src/include/mcut/internal/geom.h) over exact rational scalars.

The kernel is generic over a real-number type with ordered-field semantics;
we instantiate that scalar with the rationals. The bounding-box structure,
its two expand overloads, intersect_bounding_boxes and make_bbox are
translated directly from the inline template code in the header. The four
predicate functions (plane coefficients, segment-plane intersection and the
two point-in-polygon tests) are only declared in the header; their bodies
are modelled from the specification, as indicated at each definition.
-/

/-- A 2D vector of rational coordinates (math layer type vec2). -/
structure vec2 where
  x : ℚ
  y : ℚ
deriving DecidableEq

/-- A 3D vector of rational coordinates (math layer type vec3). -/
structure vec3 where
  x : ℚ
  y : ℚ
  z : ℚ
deriving DecidableEq

/-- Dot product of two 3D vectors (math layer). -/
def dot3 (a b : vec3) : ℚ :=
  a.x * b.x + a.y * b.y + a.z * b.z

/-- Cross product of two 3D vectors (math layer). -/
def cross3 (a b : vec3) : vec3 :=
  ⟨a.y * b.z - a.z * b.y, a.z * b.x - a.x * b.z, a.x * b.y - a.y * b.x⟩

/-- Component-wise difference of two 3D vectors (math layer). -/
def vsub3 (a b : vec3) : vec3 :=
  ⟨a.x - b.x, a.y - b.y, a.z - b.z⟩

/-- Component-wise sum of two 3D vectors (math layer). -/
def vadd3 (a b : vec3) : vec3 :=
  ⟨a.x + b.x, a.y + b.y, a.z + b.z⟩

/-- Scalar triple product det(a, b, c), written via dot and cross. -/
def det3 (a b c : vec3) : ℚ :=
  dot3 (cross3 a b) c

/-- Component-wise minimum of two 3D vectors (math layer compwise_min). -/
def compwise_min (a b : vec3) : vec3 :=
  ⟨min a.x b.x, min a.y b.y, min a.z b.z⟩

/-- Component-wise maximum of two 3D vectors (math layer compwise_max). -/
def compwise_max (a b : vec3) : vec3 :=
  ⟨max a.x b.x, max a.y b.y, max a.z b.z⟩

/-- The exact rational value of std::numeric_limits of double ::max(),
the largest finite double. -/
def dbl_limit_max : ℚ :=
  ((2 ^ 1024 - 2 ^ 971 : ℕ) : ℚ)

/-- The exact rational value of std::numeric_limits of double ::min(),
the smallest positive normalized double (NOT the most negative double). -/
def dbl_limit_min : ℚ :=
  1 / ((2 ^ 1022 : ℕ) : ℚ)

/-- The bounding_box_t struct of geom.h, instantiated at vec3: a pair of a
component-wise minimum corner and a component-wise maximum corner. -/
structure bounding_box_t where
  m_minimum : vec3
  m_maximum : vec3
deriving DecidableEq

/-- The default constructor bounding_box_t(): m_minimum is splat-filled with
std::numeric_limits of double ::max() and m_maximum with
std::numeric_limits of double ::min(), exactly as the header writes them. -/
def default_bounding_box : bounding_box_t :=
  ⟨⟨dbl_limit_max, dbl_limit_max, dbl_limit_max⟩,
   ⟨dbl_limit_min, dbl_limit_min, dbl_limit_min⟩⟩

/-- bounding_box_t::expand(point): m_maximum becomes compwise_max of the old
maximum and the point, m_minimum becomes compwise_min of the old minimum and
the point. -/
def bounding_box_t.expand (self : bounding_box_t) (point : vec3) : bounding_box_t :=
  ⟨compwise_min self.m_minimum point, compwise_max self.m_maximum point⟩

/-- bounding_box_t::expand(bbox): same as expand(point) but taking the other
box's two corners. -/
def bounding_box_t.expand_box (self other : bounding_box_t) : bounding_box_t :=
  ⟨compwise_min self.m_minimum other.m_minimum,
   compwise_max self.m_maximum other.m_maximum⟩

/-- intersect_bounding_boxes from geom.h: per-axis closed-interval overlap
of the two boxes, conjoined over the three axes. -/
def intersect_bounding_boxes (a b : bounding_box_t) : Bool :=
  (decide (a.m_minimum.x ≤ b.m_maximum.x) && decide (a.m_maximum.x ≥ b.m_minimum.x)) &&
  (decide (a.m_minimum.y ≤ b.m_maximum.y) && decide (a.m_maximum.y ≥ b.m_minimum.y)) &&
  (decide (a.m_minimum.z ≤ b.m_maximum.z) && decide (a.m_maximum.z ≥ b.m_minimum.z))

/-- Modelled from the spec: point_in_bounding_box is only declared in the
header; section 4.5 defines contains(point, box) as closed-interval
membership on each axis. -/
def point_in_bounding_box (point : vec3) (bbox : bounding_box_t) : Bool :=
  (decide (bbox.m_minimum.x ≤ point.x) && decide (point.x ≤ bbox.m_maximum.x)) &&
  (decide (bbox.m_minimum.y ≤ point.y) && decide (point.y ≤ bbox.m_maximum.y)) &&
  (decide (bbox.m_minimum.z ≤ point.z) && decide (point.z ≤ bbox.m_maximum.z))

/-- make_bbox from geom.h: iterate the vertex array once, calling expand on
the caller-supplied box for each vertex in order. -/
def make_bbox (bbox : bounding_box_t) (vertices : List vec3) : bounding_box_t :=
  vertices.foldl (fun b v => b.expand v) bbox

/-- The box invariant of the spec: minimum at most maximum on every axis. -/
def bbox_valid (b : bounding_box_t) : Prop :=
  b.m_minimum.x ≤ b.m_maximum.x ∧ b.m_minimum.y ≤ b.m_maximum.y ∧
    b.m_minimum.z ≤ b.m_maximum.z

/-- Running Newell summation: newellGo first prev rest adds up the cross
products of consecutive vertex pairs along prev :: rest and closes the cycle
with cross3 of the last vertex and first. -/
def newellGo (first : vec3) : vec3 → List vec3 → vec3
  | prev, [] => cross3 prev first
  | prev, r :: rs => vadd3 (cross3 prev r) (newellGo first r rs)

/-- Modelled from the spec: the un-normalized polygon normal of
compute_polygon_plane_coefficients (whose body is not in the header), as a
Newell-style sum of cross products of consecutive vertex pairs taken
cyclically around the polygon. -/
def polygon_plane_normal : List vec3 → vec3
  | [] => ⟨0, 0, 0⟩
  | v :: vs => newellGo v v vs

/-- Modelled from the spec: the plane offset d of
compute_polygon_plane_coefficients, chosen from one reference vertex so that
dot3 normal v + d vanishes at that vertex. -/
def plane_d_coeff : List vec3 → ℚ
  | [] => 0
  | v :: vs => -(dot3 (polygon_plane_normal (v :: vs)) v)

/-- Index (x = 0, y = 1, z = 2) of a largest-magnitude component of a
vector; drives the dominant-axis projection. -/
def largest_component (n : vec3) : Nat :=
  if |n.y| ≤ |n.x| ∧ |n.z| ≤ |n.x| then 0
  else if |n.z| ≤ |n.y| then 1
  else 2

/-- The coordinate of a 3D vector selected by an axis index
(0 selects x, 1 selects y, any other index selects z). -/
def vec3_component (j : Nat) (v : vec3) : ℚ :=
  if j = 0 then v.x else if j = 1 then v.y else v.z

/-- Modelled from the spec: compute_polygon_plane_coefficients is only
declared in the header; it returns the Newell normal, the offset d and the
index of the largest-magnitude normal component. -/
def compute_polygon_plane_coefficients (poly : List vec3) : vec3 × ℚ × Nat :=
  (polygon_plane_normal poly, plane_d_coeff poly,
    largest_component (polygon_plane_normal poly))

/-- Linear interpolation of the transversal intersection point from the two
signed distances dq and dr of the segment endpoints. -/
def segment_interp (q r : vec3) (dq dr : ℚ) : vec3 :=
  ⟨q.x + dq / (dq - dr) * (r.x - q.x),
   q.y + dq / (dq - dr) * (r.y - q.y),
   q.z + dq / (dq - dr) * (r.z - q.z)⟩

/-- Modelled from the spec: compute_segment_plane_intersection is only
declared in the header; section 4.2 fixes the classification codes in
priority order and the interpolated intersection point. The second result
component is the output point, present exactly for codes q, r and 1. -/
def compute_segment_plane_intersection (normal : vec3) (d_coeff : ℚ)
    (q r : vec3) : Char × Option vec3 :=
  if dot3 normal q + d_coeff = 0 then
    if dot3 normal r + d_coeff = 0 then ('p', none)
    else ('q', some q)
  else if dot3 normal r + d_coeff = 0 then ('r', some r)
  else if (0 < dot3 normal q + d_coeff ∧ 0 < dot3 normal r + d_coeff) ∨
      (dot3 normal q + d_coeff < 0 ∧ dot3 normal r + d_coeff < 0) then
    ('0', none)
  else
    ('1', some (segment_interp q r (dot3 normal q + d_coeff)
      (dot3 normal r + d_coeff)))

/-- The cyclically consecutive vertex pairs (edges) of a polygon given as a
vertex list: each vertex paired with its successor, the last with the first. -/
def edgesOf : List vec2 → List (vec2 × vec2)
  | [] => []
  | v :: vs => List.zip (v :: vs) (vs ++ [v])

/-- Exact midpoint of a 2D edge. -/
def mid2 (a b : vec2) : vec2 :=
  ⟨(a.x + b.x) / 2, (a.y + b.y) / 2⟩

/-- Point q lies on the open interior of edge e: collinear with the edge,
inside the edge's coordinate ranges, and distinct from both endpoints. -/
def onEdge (q : vec2) (e : vec2 × vec2) : Bool :=
  decide ((e.2.x - e.1.x) * (q.y - e.1.y) - (e.2.y - e.1.y) * (q.x - e.1.x) = 0) &&
  decide (min e.1.x e.2.x ≤ q.x) && decide (q.x ≤ max e.1.x e.2.x) &&
  decide (min e.1.y e.2.y ≤ q.y) && decide (q.y ≤ max e.1.y e.2.y) &&
  !(decide (q = e.1)) && !(decide (q = e.2))

/-- The horizontal ray from q towards positive x strictly crosses edge e,
with the half-open tie-breaking rule on the y-interval of the edge. -/
def crossesRay (q : vec2) (e : vec2 × vec2) : Bool :=
  (decide (e.1.y > q.y) != decide (e.2.y > q.y)) &&
  decide (q.x < e.1.x + (q.y - e.1.y) * (e.2.x - e.1.x) / (e.2.y - e.1.y))

/-- Modelled from the spec: the 2D compute_point_in_polygon_test is only
declared in the header; section 4.3 requires vertex coincidence and
on-edge detection before the ray-crossing parity rule. -/
def compute_point_in_polygon_test (q : vec2) (poly : List vec2) : Char :=
  if poly.any (fun v => decide (q = v)) then 'v'
  else if (edgesOf poly).any (onEdge q) then 'e'
  else if ((edgesOf poly).filter (crossesRay q)).length % 2 = 1 then 'i'
  else 'o'

/-- Drop the coordinate named by the dominant-axis index from a 3D vector
(axis 0 drops x, axis 1 drops y, any other index drops z). -/
def dropComponent (axis : Nat) (v : vec3) : vec2 :=
  if axis = 0 then ⟨v.y, v.z⟩
  else if axis = 1 then ⟨v.x, v.z⟩
  else ⟨v.x, v.y⟩

/-- Projection of a 3D polygon to 2D by dropping the dominant-axis
coordinate of every vertex. -/
def project_polygon (axis : Nat) : List vec3 → List vec2
  | [] => []
  | v :: vs => dropComponent axis v :: project_polygon axis vs

/-- Modelled from the spec: the 3D compute_point_in_polygon_test is only
declared in the header; section 4.4 drops the dominant-axis coordinate from
the query point and every vertex and delegates to the 2D test. -/
def compute_point_in_polygon_test_3d (p : vec3) (poly : List vec3)
    (axis : Nat) : Char :=
  compute_point_in_polygon_test (dropComponent axis p) (project_polygon axis poly)

/-- The unit square polygon of the spec's concrete scenario. -/
def unit_square : List vec2 :=
  [⟨0, 0⟩, ⟨1, 0⟩, ⟨1, 1⟩, ⟨0, 1⟩]

/-- A planar square in the plane z = 0, used as a concrete witness input. -/
def square3d : List vec3 :=
  [⟨0, 0, 0⟩, ⟨1, 0, 0⟩, ⟨1, 1, 0⟩, ⟨0, 1, 0⟩]

/-- A concrete valid box spanning the unit cube. -/
def boxA : bounding_box_t :=
  ⟨⟨0, 0, 0⟩, ⟨1, 1, 1⟩⟩

/-- A concrete valid box overlapping boxA. -/
def boxB : bounding_box_t :=
  ⟨⟨-1, 0, 0⟩, ⟨2, 1, 1⟩⟩

/-- A concrete valid box touching boxA along the face x = 1. -/
def boxC : bounding_box_t :=
  ⟨⟨1, 0, 0⟩, ⟨2, 1, 1⟩⟩

/-- Two Boolean values that decide the same proposition are equal. -/
lemma bool_eq_of_iff {x y : Bool} (h : x = true ↔ y = true) : x = y := by
  revert h
  revert y
  revert x
  decide

/-- Two closed rational intervals with ordered endpoints overlap exactly
when each lower endpoint is at most the other interval's upper endpoint. -/
lemma interval_overlap_iff (a1 a2 b1 b2 : ℚ) (ha : a1 ≤ a2) (hb : b1 ≤ b2) :
    (a1 ≤ b2 ∧ a2 ≥ b1) ↔ ∃ t, a1 ≤ t ∧ t ≤ a2 ∧ b1 ≤ t ∧ t ≤ b2 := by
  constructor
  · rintro ⟨h1, h2⟩
    exact ⟨max a1 b1, le_max_left a1 b1, max_le ha h2, le_max_right a1 b1,
      max_le h1 hb⟩
  · rintro ⟨t, h1, h2, h3, h4⟩
    exact ⟨le_trans h1 h4, le_trans h3 h2⟩

/-- make_bbox on a cons steps to make_bbox on the expanded box. -/
lemma make_bbox_cons (B : bounding_box_t) (v : vec3) (l : List vec3) :
    make_bbox B (v :: l) = make_bbox (B.expand v) l := rfl

/-- The corners of a make_bbox result are component-wise left folds of min
and max over the vertex coordinates, seeded with the initial corners. -/
lemma make_bbox_corners (l : List vec3) : ∀ B : bounding_box_t,
    (make_bbox B l).m_minimum =
      ⟨List.foldl min B.m_minimum.x (l.map vec3.x),
       List.foldl min B.m_minimum.y (l.map vec3.y),
       List.foldl min B.m_minimum.z (l.map vec3.z)⟩ ∧
    (make_bbox B l).m_maximum =
      ⟨List.foldl max B.m_maximum.x (l.map vec3.x),
       List.foldl max B.m_maximum.y (l.map vec3.y),
       List.foldl max B.m_maximum.z (l.map vec3.z)⟩ := by
  induction l with
  | nil => intro B; exact ⟨rfl, rfl⟩
  | cons v t ih =>
    intro B
    rw [make_bbox_cons]
    exact ih (B.expand v)

/-- A seed can be pulled out of a left fold of min. -/
lemma foldl_min_pull (l : List ℚ) : ∀ a b : ℚ,
    List.foldl min (min a b) l = min a (List.foldl min b l) := by
  induction l with
  | nil => intro a b; rfl
  | cons c t ih =>
    intro a b
    simp only [List.foldl_cons]
    rw [min_assoc, ih]

/-- A seed can be pulled out of a left fold of max. -/
lemma foldl_max_pull (l : List ℚ) : ∀ a b : ℚ,
    List.foldl max (max a b) l = max a (List.foldl max b l) := by
  induction l with
  | nil => intro a b; rfl
  | cons c t ih =>
    intro a b
    simp only [List.foldl_cons]
    rw [max_assoc, ih]

/-- Expanding a valid box by a point keeps the validity invariant. -/
lemma expand_point_valid (B : bounding_box_t) (p : vec3) (hB : bbox_valid B) :
    bbox_valid (B.expand p) := by
  obtain ⟨h1, h2, h3⟩ := hB
  exact ⟨le_trans (min_le_left _ _) (le_trans h1 (le_max_left _ _)),
    le_trans (min_le_left _ _) (le_trans h2 (le_max_left _ _)),
    le_trans (min_le_left _ _) (le_trans h3 (le_max_left _ _))⟩

/-- Expanding a box by a point makes it contain that point. -/
lemma expand_point_contains (B : bounding_box_t) (p : vec3) :
    point_in_bounding_box p (B.expand p) = true := by
  simp only [point_in_bounding_box, bounding_box_t.expand, compwise_min,
    compwise_max, Bool.and_eq_true, decide_eq_true_eq]
  exact ⟨⟨⟨min_le_right _ _, le_max_right _ _⟩,
    min_le_right _ _, le_max_right _ _⟩, min_le_right _ _, le_max_right _ _⟩

/-- Expanding a valid box by another valid box keeps the validity
invariant. -/
lemma expand_box_valid (B b : bounding_box_t) (hB : bbox_valid B) :
    bbox_valid (B.expand_box b) := by
  obtain ⟨h1, h2, h3⟩ := hB
  exact ⟨le_trans (min_le_left _ _) (le_trans h1 (le_max_left _ _)),
    le_trans (min_le_left _ _) (le_trans h2 (le_max_left _ _)),
    le_trans (min_le_left _ _) (le_trans h3 (le_max_left _ _))⟩

/-- Expanding a box by another box makes the result contain every point the
other box contains. -/
lemma expand_box_contains (B b : bounding_box_t) (q : vec3)
    (hq : point_in_bounding_box q b = true) :
    point_in_bounding_box q (B.expand_box b) = true := by
  simp only [point_in_bounding_box, Bool.and_eq_true, decide_eq_true_eq] at hq
  obtain ⟨⟨⟨q1, q2⟩, q3, q4⟩, q5, q6⟩ := hq
  simp only [point_in_bounding_box, bounding_box_t.expand_box, compwise_min,
    compwise_max, Bool.and_eq_true, decide_eq_true_eq]
  exact ⟨⟨⟨le_trans (min_le_right _ _) q1, le_trans q2 (le_max_right _ _)⟩,
    le_trans (min_le_right _ _) q3, le_trans q4 (le_max_right _ _)⟩,
    le_trans (min_le_right _ _) q5, le_trans q6 (le_max_right _ _)⟩

/-- Claim C1: the spec requires the first expand on a default-constructed
box to establish minimum = maximum = p unconditionally, but the code seeds
m_maximum with the smallest positive normalized double rather than the most
negative one, so for p = (-1,-1,-1) the maximum corner keeps the positive
sentinel value instead of becoming p. This theorem evaluates the code at
that failing input. -/
theorem claim_C1_default_expand_keeps_sentinel_maximum :
    (default_bounding_box.expand ⟨-1, -1, -1⟩).m_minimum = ⟨-1, -1, -1⟩ ∧
    (default_bounding_box.expand ⟨-1, -1, -1⟩).m_maximum =
      ⟨dbl_limit_min, dbl_limit_min, dbl_limit_min⟩ ∧
    (default_bounding_box.expand ⟨-1, -1, -1⟩).m_maximum ≠ ⟨-1, -1, -1⟩ := by
  refine ⟨?_, ?_, ?_⟩
  · with_unfolding_all rfl
  · with_unfolding_all rfl
  · with_unfolding_all decide

/-- Claim C5: the spec requires make_bbox starting from the default box to
return the minimal enclosing box of the vertices, but for three vertices
with all-negative coordinates the resulting maximum corner stays at the
positive sentinel 2 ^ (-1022) instead of the component-wise vertex maximum
(-1,-1,-1). This theorem evaluates the code at that failing input. -/
theorem claim_C5_make_bbox_keeps_sentinel_maximum :
    (make_bbox default_bounding_box
        [⟨-1, -1, -1⟩, ⟨-2, -2, -2⟩, ⟨-3, -3, -3⟩]).m_minimum = ⟨-3, -3, -3⟩ ∧
    (make_bbox default_bounding_box
        [⟨-1, -1, -1⟩, ⟨-2, -2, -2⟩, ⟨-3, -3, -3⟩]).m_maximum =
      ⟨dbl_limit_min, dbl_limit_min, dbl_limit_min⟩ ∧
    (make_bbox default_bounding_box
        [⟨-1, -1, -1⟩, ⟨-2, -2, -2⟩, ⟨-3, -3, -3⟩]).m_maximum ≠ ⟨-1, -1, -1⟩ := by
  refine ⟨?_, ?_, ?_⟩
  · with_unfolding_all rfl
  · with_unfolding_all rfl
  · with_unfolding_all decide

/-- Claim C7: for valid boxes, intersect_bounding_boxes returns true exactly
when the closed coordinate intervals of the two boxes overlap on every axis,
and two valid boxes touching along a shared face are classified as
intersecting. -/
theorem claim_C7_intersect_closed_overlap (a b : bounding_box_t)
    (ha : bbox_valid a) (hb : bbox_valid b) :
    (intersect_bounding_boxes a b = true ↔
      ((∃ t, a.m_minimum.x ≤ t ∧ t ≤ a.m_maximum.x ∧
          b.m_minimum.x ≤ t ∧ t ≤ b.m_maximum.x) ∧
       (∃ t, a.m_minimum.y ≤ t ∧ t ≤ a.m_maximum.y ∧
          b.m_minimum.y ≤ t ∧ t ≤ b.m_maximum.y) ∧
       (∃ t, a.m_minimum.z ≤ t ∧ t ≤ a.m_maximum.z ∧
          b.m_minimum.z ≤ t ∧ t ≤ b.m_maximum.z))) ∧
    (a.m_maximum.x = b.m_minimum.x →
      (∃ t, a.m_minimum.y ≤ t ∧ t ≤ a.m_maximum.y ∧
          b.m_minimum.y ≤ t ∧ t ≤ b.m_maximum.y) →
      (∃ t, a.m_minimum.z ≤ t ∧ t ≤ a.m_maximum.z ∧
          b.m_minimum.z ≤ t ∧ t ≤ b.m_maximum.z) →
      intersect_bounding_boxes a b = true) := by
  obtain ⟨hax, hay, haz⟩ := ha
  obtain ⟨hbx, hby, hbz⟩ := hb
  have ex := interval_overlap_iff a.m_minimum.x a.m_maximum.x
    b.m_minimum.x b.m_maximum.x hax hbx
  have ey := interval_overlap_iff a.m_minimum.y a.m_maximum.y
    b.m_minimum.y b.m_maximum.y hay hby
  have ez := interval_overlap_iff a.m_minimum.z a.m_maximum.z
    b.m_minimum.z b.m_maximum.z haz hbz
  have hiff : intersect_bounding_boxes a b = true ↔
      ((∃ t, a.m_minimum.x ≤ t ∧ t ≤ a.m_maximum.x ∧
          b.m_minimum.x ≤ t ∧ t ≤ b.m_maximum.x) ∧
       (∃ t, a.m_minimum.y ≤ t ∧ t ≤ a.m_maximum.y ∧
          b.m_minimum.y ≤ t ∧ t ≤ b.m_maximum.y) ∧
       (∃ t, a.m_minimum.z ≤ t ∧ t ≤ a.m_maximum.z ∧
          b.m_minimum.z ≤ t ∧ t ≤ b.m_maximum.z)) := by
    simp only [intersect_bounding_boxes, Bool.and_eq_true, decide_eq_true_eq]
    rw [← ex, ← ey, ← ez]
    tauto
  refine ⟨hiff, ?_⟩
  intro hx hyov hzov
  refine hiff.mpr ⟨⟨b.m_minimum.x, ?_, ?_, le_refl _, hbx⟩, hyov, hzov⟩
  · rw [← hx]; exact hax
  · rw [← hx]


/-- Witness for claim C7: concrete valid boxes touching along the face
x = 1 are classified as intersecting. -/
theorem claim_C7_witness :
    bbox_valid boxA ∧ bbox_valid boxC ∧
    intersect_bounding_boxes boxA boxC = true := by
  have hvA : bbox_valid boxA := ⟨by decide, by decide, by decide⟩
  have hvC : bbox_valid boxC := ⟨by decide, by decide, by decide⟩
  refine ⟨hvA, hvC,
    (claim_C7_intersect_closed_overlap boxA boxC hvA hvC).2 rfl ?_ ?_⟩
  · exact ⟨0, by decide, by decide, by decide, by decide⟩
  · exact ⟨0, by decide, by decide, by decide, by decide⟩

/-- Claim C8: intersect_bounding_boxes is symmetric on all boxes and
reflexive on every valid box. -/
theorem claim_C8_intersect_symm_refl (a b : bounding_box_t) :
    intersect_bounding_boxes a b = intersect_bounding_boxes b a ∧
    (bbox_valid a → intersect_bounding_boxes a a = true) := by
  constructor
  · apply bool_eq_of_iff
    simp only [intersect_bounding_boxes, Bool.and_eq_true, decide_eq_true_eq]
    constructor
    · rintro ⟨⟨⟨h1, h2⟩, h3, h4⟩, h5, h6⟩
      exact ⟨⟨⟨h2, h1⟩, h4, h3⟩, h6, h5⟩
    · rintro ⟨⟨⟨h1, h2⟩, h3, h4⟩, h5, h6⟩
      exact ⟨⟨⟨h2, h1⟩, h4, h3⟩, h6, h5⟩
  · rintro ⟨h1, h2, h3⟩
    simp only [intersect_bounding_boxes, Bool.and_eq_true, decide_eq_true_eq]
    exact ⟨⟨⟨h1, h1⟩, h2, h2⟩, h3, h3⟩

/-- Witness for claim C8: symmetry and reflexivity at concrete boxes. -/
theorem claim_C8_witness :
    intersect_bounding_boxes boxA boxB = intersect_bounding_boxes boxB boxA ∧
    intersect_bounding_boxes boxA boxA = true := by
  have h := claim_C8_intersect_symm_refl boxA boxB
  exact ⟨h.1, h.2 ⟨by decide, by decide, by decide⟩⟩

/-- Claim C9: on valid boxes both expand overloads preserve the validity
invariant, never move the minimum corner up nor the maximum corner down,
and the expanded box contains the new point (respectively the whole extent
of the other box) under closed-interval containment. -/
theorem claim_C9_expand_never_shrinks (B b : bounding_box_t) (p : vec3)
    (hB : bbox_valid B) (hb : bbox_valid b) :
    (bbox_valid (B.expand p) ∧
      (B.expand p).m_minimum.x ≤ B.m_minimum.x ∧
      (B.expand p).m_minimum.y ≤ B.m_minimum.y ∧
      (B.expand p).m_minimum.z ≤ B.m_minimum.z ∧
      B.m_maximum.x ≤ (B.expand p).m_maximum.x ∧
      B.m_maximum.y ≤ (B.expand p).m_maximum.y ∧
      B.m_maximum.z ≤ (B.expand p).m_maximum.z ∧
      point_in_bounding_box p (B.expand p) = true) ∧
    (bbox_valid (B.expand_box b) ∧
      (B.expand_box b).m_minimum.x ≤ B.m_minimum.x ∧
      (B.expand_box b).m_minimum.y ≤ B.m_minimum.y ∧
      (B.expand_box b).m_minimum.z ≤ B.m_minimum.z ∧
      B.m_maximum.x ≤ (B.expand_box b).m_maximum.x ∧
      B.m_maximum.y ≤ (B.expand_box b).m_maximum.y ∧
      B.m_maximum.z ≤ (B.expand_box b).m_maximum.z ∧
      (∀ q : vec3, point_in_bounding_box q b = true →
        point_in_bounding_box q (B.expand_box b) = true)) := by
  refine ⟨⟨expand_point_valid B p hB, min_le_left _ _, min_le_left _ _,
    min_le_left _ _, le_max_left _ _, le_max_left _ _, le_max_left _ _,
    expand_point_contains B p⟩,
    expand_box_valid B b hB, min_le_left _ _, min_le_left _ _,
    min_le_left _ _, le_max_left _ _, le_max_left _ _, le_max_left _ _,
    fun q hq => expand_box_contains B b q hq⟩

/-- Witness for claim C9: expanding a concrete valid box preserves validity
and contains the added point, and box expansion keeps validity. -/
theorem claim_C9_witness :
    bbox_valid (boxA.expand ⟨2, 2, 2⟩) ∧
    point_in_bounding_box ⟨2, 2, 2⟩ (boxA.expand ⟨2, 2, 2⟩) = true ∧
    bbox_valid (boxA.expand_box boxB) := by
  have h := claim_C9_expand_never_shrinks boxA boxB ⟨2, 2, 2⟩
    ⟨by decide, by decide, by decide⟩ ⟨by decide, by decide, by decide⟩
  exact ⟨h.1.1, h.1.2.2.2.2.2.2.2, h.2.1⟩

/-- Claim C10: make_bbox never reinitializes the caller-supplied box: the
result is the initial box successively expanded by each vertex in order, so
each minimum component is the min of the initial component and the minimum
over the vertices, and dually each maximum component is the max of the
initial component and the maximum over the vertices. -/
theorem claim_C10_make_bbox_accumulates (B : bounding_box_t) (v : vec3)
    (vs : List vec3) (h3 : 3 ≤ (v :: vs).length) :
    make_bbox B (v :: vs) =
      List.foldl (fun bb w => bb.expand w) B (v :: vs) ∧
    (make_bbox B (v :: vs)).m_minimum.x =
      min B.m_minimum.x (List.foldl min v.x (vs.map vec3.x)) ∧
    (make_bbox B (v :: vs)).m_minimum.y =
      min B.m_minimum.y (List.foldl min v.y (vs.map vec3.y)) ∧
    (make_bbox B (v :: vs)).m_minimum.z =
      min B.m_minimum.z (List.foldl min v.z (vs.map vec3.z)) ∧
    (make_bbox B (v :: vs)).m_maximum.x =
      max B.m_maximum.x (List.foldl max v.x (vs.map vec3.x)) ∧
    (make_bbox B (v :: vs)).m_maximum.y =
      max B.m_maximum.y (List.foldl max v.y (vs.map vec3.y)) ∧
    (make_bbox B (v :: vs)).m_maximum.z =
      max B.m_maximum.z (List.foldl max v.z (vs.map vec3.z)) := by
  obtain ⟨hmin, hmax⟩ := make_bbox_corners (v :: vs) B
  refine ⟨rfl, ?_, ?_, ?_, ?_, ?_, ?_⟩
  · rw [hmin]
    simp only [List.map_cons, List.foldl_cons]
    exact foldl_min_pull _ _ _
  · rw [hmin]
    simp only [List.map_cons, List.foldl_cons]
    exact foldl_min_pull _ _ _
  · rw [hmin]
    simp only [List.map_cons, List.foldl_cons]
    exact foldl_min_pull _ _ _
  · rw [hmax]
    simp only [List.map_cons, List.foldl_cons]
    exact foldl_max_pull _ _ _
  · rw [hmax]
    simp only [List.map_cons, List.foldl_cons]
    exact foldl_max_pull _ _ _
  · rw [hmax]
    simp only [List.map_cons, List.foldl_cons]
    exact foldl_max_pull _ _ _

/-- Witness for claim C10: the fold characterization of make_bbox at a
concrete starting box and a concrete three-vertex list. -/
theorem claim_C10_witness :
    make_bbox boxA [⟨2, -1, 3⟩, ⟨0, 5, -2⟩, ⟨4, 1, 0⟩] =
      List.foldl (fun bb w => bb.expand w) boxA
        [⟨2, -1, 3⟩, ⟨0, 5, -2⟩, ⟨4, 1, 0⟩] ∧
    (make_bbox boxA [⟨2, -1, 3⟩, ⟨0, 5, -2⟩, ⟨4, 1, 0⟩]).m_minimum.x =
      min boxA.m_minimum.x
        (List.foldl min (vec3.mk 2 (-1) 3).x
          ([⟨0, 5, -2⟩, ⟨4, 1, 0⟩].map vec3.x)) ∧
    (make_bbox boxA [⟨2, -1, 3⟩, ⟨0, 5, -2⟩, ⟨4, 1, 0⟩]).m_minimum.y =
      min boxA.m_minimum.y
        (List.foldl min (vec3.mk 2 (-1) 3).y
          ([⟨0, 5, -2⟩, ⟨4, 1, 0⟩].map vec3.y)) ∧
    (make_bbox boxA [⟨2, -1, 3⟩, ⟨0, 5, -2⟩, ⟨4, 1, 0⟩]).m_minimum.z =
      min boxA.m_minimum.z
        (List.foldl min (vec3.mk 2 (-1) 3).z
          ([⟨0, 5, -2⟩, ⟨4, 1, 0⟩].map vec3.z)) ∧
    (make_bbox boxA [⟨2, -1, 3⟩, ⟨0, 5, -2⟩, ⟨4, 1, 0⟩]).m_maximum.x =
      max boxA.m_maximum.x
        (List.foldl max (vec3.mk 2 (-1) 3).x
          ([⟨0, 5, -2⟩, ⟨4, 1, 0⟩].map vec3.x)) ∧
    (make_bbox boxA [⟨2, -1, 3⟩, ⟨0, 5, -2⟩, ⟨4, 1, 0⟩]).m_maximum.y =
      max boxA.m_maximum.y
        (List.foldl max (vec3.mk 2 (-1) 3).y
          ([⟨0, 5, -2⟩, ⟨4, 1, 0⟩].map vec3.y)) ∧
    (make_bbox boxA [⟨2, -1, 3⟩, ⟨0, 5, -2⟩, ⟨4, 1, 0⟩]).m_maximum.z =
      max boxA.m_maximum.z
        (List.foldl max (vec3.mk 2 (-1) 3).z
          ([⟨0, 5, -2⟩, ⟨4, 1, 0⟩].map vec3.z)) :=
  claim_C10_make_bbox_accumulates boxA ⟨2, -1, 3⟩ [⟨0, 5, -2⟩, ⟨4, 1, 0⟩]
    (by decide)

/-- Claim C2: compute_segment_plane_intersection returns exactly one of the
five mutually exclusive codes, each characterized by the signed distances of
the two endpoints, with the on-plane endpoint copied to the output for codes
q and r and the interpolated point produced for code 1; and the spec's five
concrete plane z = 0 cases evaluate to the stated codes and points. -/
theorem claim_C2_segment_plane_cases (normal : vec3) (d : ℚ) (q r : vec3) :
    (((compute_segment_plane_intersection normal d q r).1 = 'p' ∨
      (compute_segment_plane_intersection normal d q r).1 = 'q' ∨
      (compute_segment_plane_intersection normal d q r).1 = 'r' ∨
      (compute_segment_plane_intersection normal d q r).1 = '0' ∨
      (compute_segment_plane_intersection normal d q r).1 = '1') ∧
     ((compute_segment_plane_intersection normal d q r).1 = 'p' ↔
       dot3 normal q + d = 0 ∧ dot3 normal r + d = 0) ∧
     ((compute_segment_plane_intersection normal d q r).1 = 'q' ↔
       dot3 normal q + d = 0 ∧ dot3 normal r + d ≠ 0) ∧
     ((compute_segment_plane_intersection normal d q r).1 = 'q' →
       (compute_segment_plane_intersection normal d q r).2 = some q) ∧
     ((compute_segment_plane_intersection normal d q r).1 = 'r' ↔
       dot3 normal q + d ≠ 0 ∧ dot3 normal r + d = 0) ∧
     ((compute_segment_plane_intersection normal d q r).1 = 'r' →
       (compute_segment_plane_intersection normal d q r).2 = some r) ∧
     ((compute_segment_plane_intersection normal d q r).1 = '0' ↔
       (dot3 normal q + d ≠ 0 ∧ dot3 normal r + d ≠ 0 ∧
        ((0 < dot3 normal q + d ∧ 0 < dot3 normal r + d) ∨
         (dot3 normal q + d < 0 ∧ dot3 normal r + d < 0)))) ∧
     ((compute_segment_plane_intersection normal d q r).1 = '1' ↔
       ((0 < dot3 normal q + d ∧ dot3 normal r + d < 0) ∨
        (dot3 normal q + d < 0 ∧ 0 < dot3 normal r + d))) ∧
     ((compute_segment_plane_intersection normal d q r).1 = '1' →
       (compute_segment_plane_intersection normal d q r).2 =
         some (segment_interp q r (dot3 normal q + d) (dot3 normal r + d)))) ∧
    ((compute_segment_plane_intersection ⟨0, 0, 1⟩ 0 ⟨0, 0, 0⟩ ⟨1, 1, 0⟩).1 = 'p' ∧
     compute_segment_plane_intersection ⟨0, 0, 1⟩ 0 ⟨0, 0, 0⟩ ⟨1, 1, 1⟩ =
       ('q', some ⟨0, 0, 0⟩) ∧
     compute_segment_plane_intersection ⟨0, 0, 1⟩ 0 ⟨1, 1, 1⟩ ⟨0, 0, 0⟩ =
       ('r', some ⟨0, 0, 0⟩) ∧
     (compute_segment_plane_intersection ⟨0, 0, 1⟩ 0 ⟨1, 1, 1⟩ ⟨2, 2, 2⟩).1 = '0' ∧
     compute_segment_plane_intersection ⟨0, 0, 1⟩ 0 ⟨0, 0, -1⟩ ⟨0, 0, 1⟩ =
       ('1', some ⟨0, 0, 0⟩)) := by
  constructor
  · simp only [compute_segment_plane_intersection]
    split_ifs with ha hb hc hd
    · refine ⟨Or.inl rfl, iff_of_true rfl ⟨ha, hb⟩, ?_, ?_, ?_, ?_, ?_, ?_, ?_⟩
      · exact iff_of_false (by dsimp only; decide) (fun h => h.2 hb)
      · exact fun h => absurd h (by dsimp only; decide)
      · exact iff_of_false (by dsimp only; decide) (fun h => h.1 ha)
      · exact fun h => absurd h (by dsimp only; decide)
      · exact iff_of_false (by dsimp only; decide) (fun h => h.1 ha)
      · refine iff_of_false (by dsimp only; decide) ?_
        rintro (⟨a, b⟩ | ⟨a, b⟩)
        · rw [ha] at a; exact lt_irrefl 0 a
        · rw [ha] at a; exact lt_irrefl 0 a
      · exact fun h => absurd h (by dsimp only; decide)
    · refine ⟨Or.inr (Or.inl rfl), ?_, iff_of_true rfl ⟨ha, hb⟩, fun _ => rfl,
        ?_, ?_, ?_, ?_, ?_⟩
      · exact iff_of_false (by dsimp only; decide) (fun h => hb h.2)
      · exact iff_of_false (by dsimp only; decide) (fun h => h.1 ha)
      · exact fun h => absurd h (by dsimp only; decide)
      · exact iff_of_false (by dsimp only; decide) (fun h => h.1 ha)
      · refine iff_of_false (by dsimp only; decide) ?_
        rintro (⟨a, b⟩ | ⟨a, b⟩)
        · rw [ha] at a; exact lt_irrefl 0 a
        · rw [ha] at a; exact lt_irrefl 0 a
      · exact fun h => absurd h (by dsimp only; decide)
    · refine ⟨Or.inr (Or.inr (Or.inl rfl)), ?_, ?_, ?_,
        iff_of_true rfl ⟨ha, hc⟩, fun _ => rfl, ?_, ?_, ?_⟩
      · exact iff_of_false (by dsimp only; decide) (fun h => ha h.1)
      · exact iff_of_false (by dsimp only; decide) (fun h => ha h.1)
      · exact fun h => absurd h (by dsimp only; decide)
      · exact iff_of_false (by dsimp only; decide) (fun h => h.2.1 hc)
      · refine iff_of_false (by dsimp only; decide) ?_
        rintro (⟨a, b⟩ | ⟨a, b⟩)
        · rw [hc] at b; exact lt_irrefl 0 b
        · rw [hc] at b; exact lt_irrefl 0 b
      · exact fun h => absurd h (by dsimp only; decide)
    · refine ⟨Or.inr (Or.inr (Or.inr (Or.inl rfl))), ?_, ?_, ?_, ?_, ?_,
        iff_of_true rfl ⟨ha, hc, hd⟩, ?_, ?_⟩
      · exact iff_of_false (by dsimp only; decide) (fun h => ha h.1)
      · exact iff_of_false (by dsimp only; decide) (fun h => ha h.1)
      · exact fun h => absurd h (by dsimp only; decide)
      · exact iff_of_false (by dsimp only; decide) (fun h => hc h.2)
      · exact fun h => absurd h (by dsimp only; decide)
      · refine iff_of_false (by dsimp only; decide) ?_
        rintro (⟨a, b⟩ | ⟨a, b⟩) <;> rcases hd with ⟨c1, c2⟩ | ⟨c1, c2⟩ <;>
          linarith
      · exact fun h => absurd h (by dsimp only; decide)
    · have hopp : (0 < dot3 normal q + d ∧ dot3 normal r + d < 0) ∨
          (dot3 normal q + d < 0 ∧ 0 < dot3 normal r + d) := by
        rcases lt_trichotomy (dot3 normal q + d) 0 with a | a | a
        · rcases lt_trichotomy (dot3 normal r + d) 0 with b | b | b
          · exact absurd (Or.inr ⟨a, b⟩) hd
          · exact absurd b hc
          · exact Or.inr ⟨a, b⟩
        · exact absurd a ha
        · rcases lt_trichotomy (dot3 normal r + d) 0 with b | b | b
          · exact Or.inl ⟨a, b⟩
          · exact absurd b hc
          · exact absurd (Or.inl ⟨a, b⟩) hd
      refine ⟨Or.inr (Or.inr (Or.inr (Or.inr rfl))), ?_, ?_, ?_, ?_, ?_, ?_,
        iff_of_true rfl hopp, fun _ => rfl⟩
      · exact iff_of_false (by dsimp only; decide) (fun h => ha h.1)
      · exact iff_of_false (by dsimp only; decide) (fun h => ha h.1)
      · exact fun h => absurd h (by dsimp only; decide)
      · exact iff_of_false (by dsimp only; decide) (fun h => hc h.2)
      · exact fun h => absurd h (by dsimp only; decide)
      · refine iff_of_false (by dsimp only; decide) ?_
        rintro ⟨h1, h2, hss⟩
        exact hd hss
  · refine ⟨?_, ?_, ?_, ?_, ?_⟩
    · with_unfolding_all rfl
    · with_unfolding_all rfl
    · with_unfolding_all rfl
    · with_unfolding_all rfl
    · with_unfolding_all rfl

/-- Witness for claim C2: the on-plane endpoint q is copied to the output
point in the concrete code-q case of the spec. -/
theorem claim_C2_witness :
    (compute_segment_plane_intersection ⟨0, 0, 1⟩ 0 ⟨0, 0, 0⟩ ⟨1, 1, 1⟩).2 =
      some ⟨0, 0, 0⟩ := by
  have h := claim_C2_segment_plane_cases ⟨0, 0, 1⟩ 0 ⟨0, 0, 0⟩ ⟨1, 1, 1⟩
  exact h.1.2.2.2.1 (by with_unfolding_all rfl)

/-- Claim C3: the 2D point-in-polygon test classifies exact boundary points
before the parity rule: a query equal to any polygon vertex yields code v, a
query at the exact midpoint of an edge with distinct endpoints that is not
itself a vertex yields code e, and the spec's unit-square scenario evaluates
to i, o, e and v. -/
theorem claim_C3_point_in_polygon_boundary :
    (∀ (poly : List vec2) (qq : vec2), qq ∈ poly →
        compute_point_in_polygon_test qq poly = 'v') ∧
    (∀ (poly : List vec2) (a b : vec2), (a, b) ∈ edgesOf poly → a ≠ b →
        mid2 a b ∉ poly →
        compute_point_in_polygon_test (mid2 a b) poly = 'e') ∧
    (compute_point_in_polygon_test ⟨1 / 2, 1 / 2⟩ unit_square = 'i' ∧
     compute_point_in_polygon_test ⟨2, 2⟩ unit_square = 'o' ∧
     compute_point_in_polygon_test ⟨0, 1 / 2⟩ unit_square = 'e' ∧
     compute_point_in_polygon_test ⟨0, 0⟩ unit_square = 'v') := by
  refine ⟨?_, ?_, ?_, ?_, ?_, ?_⟩
  · intro poly qq hq
    have hv : poly.any (fun v => decide (qq = v)) = true :=
      List.any_eq_true.mpr ⟨qq, hq, by simp⟩
    simp only [compute_point_in_polygon_test]
    rw [if_pos hv]
  · intro poly a b hmem hab hnot
    have hv : ¬(poly.any (fun v => decide (mid2 a b = v)) = true) := by
      rw [List.any_eq_true]
      rintro ⟨v, hvmem, hdec⟩
      rw [decide_eq_true_eq] at hdec
      exact hnot (by rw [hdec]; exact hvmem)
    have honedge : onEdge (mid2 a b) (a, b) = true := by
      simp only [onEdge, Bool.and_eq_true, Bool.not_eq_true',
        decide_eq_true_eq, decide_eq_false_iff_not]
      refine ⟨⟨⟨⟨⟨⟨?_, ?_⟩, ?_⟩, ?_⟩, ?_⟩, ?_⟩, ?_⟩
      · simp only [mid2]
        ring
      · simp only [mid2]
        have h1 := min_le_left a.x b.x
        have h2 := min_le_right a.x b.x
        linarith
      · simp only [mid2]
        have h1 := le_max_left a.x b.x
        have h2 := le_max_right a.x b.x
        linarith
      · simp only [mid2]
        have h1 := min_le_left a.y b.y
        have h2 := min_le_right a.y b.y
        linarith
      · simp only [mid2]
        have h1 := le_max_left a.y b.y
        have h2 := le_max_right a.y b.y
        linarith
      · intro h
        apply hab
        have hx := congrArg vec2.x h
        have hy := congrArg vec2.y h
        simp only [mid2] at hx hy
        rcases a with ⟨ax, ay⟩
        rcases b with ⟨bx, bv⟩
        simp only at hx hy
        rw [vec2.mk.injEq]
        constructor <;> linarith
      · intro h
        apply hab
        have hx := congrArg vec2.x h
        have hy := congrArg vec2.y h
        simp only [mid2] at hx hy
        rcases a with ⟨ax, ay⟩
        rcases b with ⟨bx, bv⟩
        simp only at hx hy
        rw [vec2.mk.injEq]
        constructor <;> linarith
    have he : (edgesOf poly).any (onEdge (mid2 a b)) = true :=
      List.any_eq_true.mpr ⟨(a, b), hmem, honedge⟩
    simp only [compute_point_in_polygon_test]
    rw [if_neg hv, if_pos he]
  · with_unfolding_all rfl
  · with_unfolding_all rfl
  · with_unfolding_all rfl
  · with_unfolding_all rfl

/-- Witness for claim C3: the midpoint of the bottom edge of the unit
square is classified as on-edge, and a vertex query as on-vertex. -/
theorem claim_C3_witness :
    compute_point_in_polygon_test (mid2 ⟨0, 0⟩ ⟨1, 0⟩) unit_square = 'e' ∧
    compute_point_in_polygon_test ⟨0, 1⟩ unit_square = 'v' := by
  have h := claim_C3_point_in_polygon_boundary
  constructor
  · refine h.2.1 unit_square ⟨0, 0⟩ ⟨1, 0⟩ ?_ ?_ ?_
    · decide
    · decide
    · with_unfolding_all decide
  · exact h.1 unit_square ⟨0, 1⟩ (by decide)

/-- Claim C4: the 3D point-in-polygon test returns exactly the 2D test
applied to the query point and the polygon vertices with the dominant-axis
coordinate dropped from each. -/
theorem claim_C4_point_in_polygon_3d_projection (p : vec3) (poly : List vec3)
    (axis : Nat) :
    compute_point_in_polygon_test_3d p poly axis =
      compute_point_in_polygon_test (dropComponent axis p)
        (poly.map (dropComponent axis)) := by
  have hmap : project_polygon axis poly = poly.map (dropComponent axis) := by
    induction poly with
    | nil => rfl
    | cons v vs ih => simp only [project_polygon, List.map_cons, ih]
  simp only [compute_point_in_polygon_test_3d, hmap]

/-- A nonzero 3D vector has a nonzero coordinate. -/
lemma vec3_ne_zero_component (m : vec3) (hm : m ≠ ⟨0, 0, 0⟩) :
    m.x ≠ 0 ∨ m.y ≠ 0 ∨ m.z ≠ 0 := by
  by_contra h
  push_neg at h
  rcases m with ⟨mx, my, mz⟩
  simp only at h
  exact hm (by rw [vec3.mk.injEq]; exact ⟨h.1, h.2.1, h.2.2⟩)

/-- Three vectors orthogonal to one nonzero vector have vanishing triple
product: they lie in a common plane through the origin. -/
lemma det3_eq_zero_of_orthogonal (m a b u : vec3) (hm : m ≠ ⟨0, 0, 0⟩)
    (ha : dot3 m a = 0) (hb : dot3 m b = 0) (hu : dot3 m u = 0) :
    det3 a b u = 0 := by
  have hmx : det3 a b u * m.x = 0 := by
    simp only [det3, dot3, cross3] at ha hb hu ⊢
    linear_combination (b.y * u.z - b.z * u.y) * ha +
      (u.y * a.z - u.z * a.y) * hb + (a.y * b.z - a.z * b.y) * hu
  have hmy : det3 a b u * m.y = 0 := by
    simp only [det3, dot3, cross3] at ha hb hu ⊢
    linear_combination (b.z * u.x - b.x * u.z) * ha +
      (u.z * a.x - u.x * a.z) * hb + (a.z * b.x - a.x * b.z) * hu
  have hmz : det3 a b u * m.z = 0 := by
    simp only [det3, dot3, cross3] at ha hb hu ⊢
    linear_combination (b.x * u.y - b.y * u.x) * ha +
      (u.x * a.y - u.y * a.x) * hb + (a.x * b.y - a.y * b.x) * hu
  rcases vec3_ne_zero_component m hm with h | h | h
  · exact (mul_eq_zero.mp hmx).resolve_right h
  · exact (mul_eq_zero.mp hmy).resolve_right h
  · exact (mul_eq_zero.mp hmz).resolve_right h

/-- Dot product is linear in vector differences. -/
lemma dot3_vsub (n a b : vec3) : dot3 n (vsub3 a b) = dot3 n a - dot3 n b := by
  simp only [dot3, vsub3]
  ring

/-- The triple product with a repeated argument vanishes. -/
lemma det3_self (f u : vec3) : det3 f f u = 0 := by
  simp only [det3, dot3, cross3]
  ring

/-- The partial Newell sum of a vertex chain lying on the plane
dot3 m x = k, dotted with any direction u orthogonal to m, closes to the
triple-product correction term of the open end of the chain. -/
lemma newellGo_dot (m : vec3) (k : ℚ) (f u : vec3) (hm : m ≠ ⟨0, 0, 0⟩)
    (hf : dot3 m f = k) (hu : dot3 m u = 0) :
    ∀ (rest : List vec3) (p : vec3), dot3 m p = k →
      (∀ w ∈ rest, dot3 m w = k) →
      dot3 (newellGo f p rest) u = -(det3 f p u) := by
  intro rest
  induction rest with
  | nil =>
    intro p hp hrest
    simp only [newellGo, det3, dot3, cross3]
    ring
  | cons w ws ih =>
    intro p hp hrest
    have hw : dot3 m w = k := hrest w (List.mem_cons_self w ws)
    have hws : ∀ v ∈ ws, dot3 m v = k :=
      fun v hv => hrest v (List.mem_cons_of_mem w hv)
    have hkey : det3 (vsub3 p f) (vsub3 w f) u = 0 := by
      apply det3_eq_zero_of_orthogonal m _ _ _ hm
      · rw [dot3_vsub]
        linear_combination hp - hf
      · rw [dot3_vsub]
        linear_combination hw - hf
      · exact hu
    have hadd : dot3 (vadd3 (cross3 p w) (newellGo f w ws)) u =
        dot3 (cross3 p w) u + dot3 (newellGo f w ws) u := by
      simp only [dot3, vadd3]
      ring
    simp only [newellGo]
    rw [hadd, ih w hw hws]
    simp only [det3, dot3, cross3, vsub3] at hkey ⊢
    linear_combination hkey

/-- The axis returned by largest_component indexes a largest-magnitude
coordinate of the vector. -/
lemma largest_component_is_max (n : vec3) :
    ∀ j < 3, |vec3_component j n| ≤ |vec3_component (largest_component n) n| := by
  intro j hj
  unfold largest_component
  split_ifs with h1 h2
  · interval_cases j
    · simp only [vec3_component]
      norm_num
    · simp only [vec3_component]
      norm_num
      exact h1.1
    · simp only [vec3_component]
      norm_num
      exact h1.2
  · rcases not_and_or.mp h1 with h | h
    · rw [not_le] at h
      interval_cases j
      · simp only [vec3_component]
        norm_num
        linarith
      · simp only [vec3_component]
        norm_num
      · simp only [vec3_component]
        norm_num
        exact h2
    · rw [not_le] at h
      interval_cases j
      · simp only [vec3_component]
        norm_num
        linarith
      · simp only [vec3_component]
        norm_num
      · simp only [vec3_component]
        norm_num
        exact h2
  · rw [not_le] at h2
    rcases not_and_or.mp h1 with h | h
    · rw [not_le] at h
      interval_cases j
      · simp only [vec3_component]
        norm_num
        linarith
      · simp only [vec3_component]
        norm_num
        linarith
      · simp only [vec3_component]
        norm_num
    · rw [not_le] at h
      interval_cases j
      · simp only [vec3_component]
        norm_num
        linarith
      · simp only [vec3_component]
        norm_num
        linarith
      · simp only [vec3_component]
        norm_num

/-- Claim C6: for a truly planar polygon with at least three vertices, the
Newell normal and offset d satisfy dot3 normal v + d = 0 exactly at every
vertex, and the returned axis indexes a largest-magnitude component of the
normal. -/
theorem claim_C6_plane_coefficients (poly : List vec3) (h3 : 3 ≤ poly.length)
    (hplanar : ∃ (m : vec3) (k : ℚ), m ≠ ⟨0, 0, 0⟩ ∧ ∀ v ∈ poly, dot3 m v = k) :
    (∀ v ∈ poly,
        dot3 (compute_polygon_plane_coefficients poly).1 v +
          (compute_polygon_plane_coefficients poly).2.1 = 0) ∧
    (∀ j < 3,
        |vec3_component j (compute_polygon_plane_coefficients poly).1| ≤
          |vec3_component (compute_polygon_plane_coefficients poly).2.2
              (compute_polygon_plane_coefficients poly).1|) := by
  obtain ⟨m, k, hm, hall⟩ := hplanar
  rcases poly with _ | ⟨v0, vs⟩
  · exact absurd h3 (by decide)
  constructor
  · intro v hv
    simp only [compute_polygon_plane_coefficients, polygon_plane_normal,
      plane_d_coeff]
    have hv0 : dot3 m v0 = k := hall v0 (List.mem_cons_self v0 vs)
    have hvk : dot3 m v = k := hall v hv
    have hu : dot3 m (vsub3 v v0) = 0 := by
      rw [dot3_vsub]
      linear_combination hvk - hv0
    have hrest : ∀ w ∈ vs, dot3 m w = k :=
      fun w hw => hall w (List.mem_cons_of_mem v0 hw)
    have hL := newellGo_dot m k v0 (vsub3 v v0) hm hv0 hu vs v0 hv0 hrest
    rw [det3_self, dot3_vsub] at hL
    linarith [hL]
  · intro j hj
    simp only [compute_polygon_plane_coefficients]
    exact largest_component_is_max (polygon_plane_normal (v0 :: vs)) j hj

/-- Witness for claim C6: the coefficients of the planar unit square in the
plane z = 0. -/
theorem claim_C6_witness :
    (∀ v ∈ square3d,
        dot3 (compute_polygon_plane_coefficients square3d).1 v +
          (compute_polygon_plane_coefficients square3d).2.1 = 0) ∧
    (∀ j < 3,
        |vec3_component j (compute_polygon_plane_coefficients square3d).1| ≤
          |vec3_component (compute_polygon_plane_coefficients square3d).2.2
              (compute_polygon_plane_coefficients square3d).1|) :=
  claim_C6_plane_coefficients square3d (by decide)
    ⟨⟨0, 0, 1⟩, 0, by decide, by with_unfolding_all decide⟩
